import Mathlib

/-!
Verification of the `tsync` lock-free bounded MPMC queue (`tsync/queue.go`)
against its specification.

The Go code is shallowly embedded as pure Lean functions over an explicit
queue state.  The `uint64` ticket counters are modelled as unbounded natural
numbers: the source itself documents counter overflow as out of scope
(queue.go lines 126-131, "overflow after ~694 days aka never"), and in every
state reached by the modelled operations the subtractions performed by the
code are non-wrapping, so truncated `Nat` subtraction agrees with the Go
`uint64` subtraction.

Spin loops (`for cond { spin.Yield() }`) are given their sequential
semantics: no other thread can change the shared state while the caller
spins, so a loop whose condition holds on entry spins forever.  Such calls
are mapped to an explicit `blocked` outcome; a loop whose condition fails on
entry is passed with zero iterations.  The `Spinner` only controls backoff
timing and never changes queue state, so it is carried as an inert
`priority` field.  For the one claim about an interleaved `Close` during
`Pop`'s publish wait, `Pop` is additionally factored into its two source
phases (`popAcquire`, `popResume`) at the exact instruction boundary of
queue.go line 74 / lines 79-96.
-/

namespace Tsync

/-- Modelled from the spec: `SpinPriority` (the spinner type is not part of
the sources at hand; queue.go only stores and forwards it).  The spec lists
the levels None, Low, Medium, High; queue.go uses `SpinPriorityMedium` as
the default.  The priority only tunes busy-wait backoff and has no effect on
queue state. -/
inductive SpinPriority where
  | none
  | low
  | medium
  | high
deriving DecidableEq, Repr

/-- Constant `SpinPriorityMedium`, the default priority used by `NewQueue`
(queue.go:21). -/
def SpinPriorityMedium : SpinPriority := SpinPriority.medium

/-- Error struct `LockedError` as constructed by `Push` (queue.go:41):
`LockedError{"Queue is locked"}` — a struct holding one message string. -/
structure LockedError where
  message : String
deriving DecidableEq, Repr

/-- Struct `queueAccess` (queue.go:132-135): the two-index access pattern, one
instance per side.  `next` hands out tickets, `processing` retires them in
order.  Counters are naturals; see the file comment on overflow. -/
structure queueAccess where
  processing : Nat
  next : Nat
deriving DecidableEq, Repr

/-- Constructor `newQueueAccess` (queue.go:137-142): both counters start at zero. -/
def newQueueAccess : queueAccess :=
  { processing := 0, next := 0 }

/-- Struct `Queue` (queue.go:10-17).  `locked` models the `*int32` flag (0/1) as a
`Bool`; `items` is the `[]interface{}` slot array, a never-written slot
holding `none` like Go's `nil`. -/
structure Queue (α : Type) where
  write : queueAccess
  read : queueAccess
  capacity : Nat
  locked : Bool
  priority : SpinPriority
  items : List (Option α)
deriving DecidableEq, Repr

/-- Constructor `NewQueueWithPriority` (queue.go:26-35). -/
def NewQueueWithPriority (α : Type) (capacity : Nat) (priority : SpinPriority) :
    Queue α :=
  { items := List.replicate capacity Option.none
    read := newQueueAccess
    write := newQueueAccess
    locked := false
    capacity := capacity
    priority := priority }

/-- Constructor `NewQueue` (queue.go:20-22): medium spinning priority. -/
def NewQueue (α : Type) (capacity : Nat) : Queue α :=
  NewQueueWithPriority α capacity SpinPriorityMedium

/-- Ticket acquisition, `ticket := atomic.AddUint64(next, 1) - 1`
(queue.go:45 and queue.go:74): the pre-increment value of `next` is the
ticket; the counter is bumped by one.  Wait-free: a total function with no
wait outcome. -/
def acquireTicket (a : queueAccess) : Nat × queueAccess :=
  (a.next, { a with next := a.next + 1 })

/-- Outcome of `Push` (queue.go:39-62).  `err` carries the returned
`LockedError` together with the (unchanged) state; `blocked` marks a spin
loop that cannot terminate in a sequential execution. -/
inductive PushResult (α : Type) where
  | err (e : LockedError) (q : Queue α)
  | blocked
  | ok (q : Queue α)
deriving DecidableEq, Repr

/-- Outcome of `Pop` (queue.go:66-96).  `empty` is a `nil` return carrying
the post state; `ok` carries the slot content (an `Option α`, since Go
returns whatever `interface{}` the slot holds) and the post state. -/
inductive PopResult (α : Type) where
  | empty (q : Queue α)
  | blocked
  | ok (item : Option α) (q : Queue α)
deriving DecidableEq, Repr

/-- Method `Push` (queue.go:39-62), sequential semantics.
1. locked check (line 40);
2. ticket and slot (lines 45-46);
3. wait for pending reads on the slot (line 50) — passes at once iff
   `ticket - read.processing < capacity`, otherwise blocks;
4. store the item (line 54);
5. wait for previous writers (line 57) — passes at once iff
   `ticket = write.processing`, otherwise blocks;
6. advance `write.processing` (line 60). -/
def Queue.Push {α : Type} (q : Queue α) (item : α) : PushResult α :=
  if q.locked then PushResult.err (LockedError.mk "Queue is locked") q
  else
    let t := acquireTicket q.write
    let ticket := t.1
    let slot := ticket % q.capacity
    let q1 : Queue α := { q with write := t.2 }
    if q.capacity ≤ ticket - q1.read.processing then PushResult.blocked
    else
      let q2 : Queue α := { q1 with items := q1.items.set slot (Option.some item) }
      if ticket = q2.write.processing then
        PushResult.ok { q2 with
          write := { q2.write with processing := q2.write.processing + 1 } }
      else PushResult.blocked

/-- The ticket-acquisition phase of `Pop` (queue.go:74): the state just
after `read.next` was bumped, paired with the acquired ticket. -/
def Queue.popAcquire {α : Type} (q : Queue α) : Queue α × Nat :=
  let t := acquireTicket q.read
  ({ q with read := t.2 }, t.1)

/-- The remainder of `Pop` after ticket acquisition (queue.go:79-96),
resumed on a state `q` that other threads may have modified while this
consumer was spinning:
1. wait for the slot to be written (line 79) — if `write.processing ≤
   ticket` still holds, the in-loop drained re-check (lines 82-85) decides
   the outcome, since no further state change can occur sequentially;
2. read the slot (line 88);
3. wait for other reads to finish (line 91) — passes at once iff
   `ticket = read.processing`, otherwise blocks;
4. advance `read.processing` (line 94). -/
def Queue.popResume {α : Type} (q : Queue α) (ticket : Nat) : PopResult α :=
  if q.write.processing ≤ ticket then
    if q.locked && (q.write.processing == q.read.processing) then
      PopResult.empty q
    else PopResult.blocked
  else
    let item := q.items.getD (ticket % q.capacity) Option.none
    if ticket = q.read.processing then
      PopResult.ok item { q with
        read := { q.read with processing := q.read.processing + 1 } }
    else PopResult.blocked

/-- Method `Pop` (queue.go:66-96), sequential semantics: the drained fast path
(lines 68-71), then ticket acquisition and the resumed body. -/
def Queue.Pop {α : Type} (q : Queue α) : PopResult α :=
  if q.locked && (q.write.processing == q.read.processing) then
    PopResult.empty q
  else
    let a := q.popAcquire
    Queue.popResume a.1 a.2

/-- Method `Close` (queue.go:100-102): store 1 into the locked flag. -/
def Queue.Close {α : Type} (q : Queue α) : Queue α :=
  { q with locked := true }

/-- Method `Reopen` (queue.go:105-107): store 0 into the locked flag. -/
def Queue.Reopen {α : Type} (q : Queue α) : Queue α :=
  { q with locked := false }

/-- Method `IsClosed` (queue.go:110-112). -/
def Queue.IsClosed {α : Type} (q : Queue α) : Bool :=
  q.locked

/-- Method `IsEmpty` (queue.go:117-119). -/
def Queue.IsEmpty {α : Type} (q : Queue α) : Bool :=
  q.write.processing == q.read.processing

/-- Method `IsDrained` (queue.go:122-124). -/
def Queue.IsDrained {α : Type} (q : Queue α) : Bool :=
  q.IsClosed && q.IsEmpty

/-- C8. Close/Reopen frame effect: `Close` sets the closed flag and nothing
else; `Reopen` clears it and nothing else.  Capacity, slot contents and all
four ticket counters (both `queueAccess` records whole) are untouched, so in
particular `Reopen` resets no counter and `Close` advances nothing that
could unblock a `Push` waiting for free capacity. -/
theorem Queue.close_reopen_frame {α : Type} (q : Queue α) :
    q.Close.locked = true ∧
    q.Close.capacity = q.capacity ∧
    q.Close.items = q.items ∧
    q.Close.write = q.write ∧
    q.Close.read = q.read ∧
    q.Close.priority = q.priority ∧
    q.Reopen.locked = false ∧
    q.Reopen.capacity = q.capacity ∧
    q.Reopen.items = q.items ∧
    q.Reopen.write = q.write ∧
    q.Reopen.read = q.read ∧
    q.Reopen.priority = q.priority :=
  ⟨rfl, rfl, rfl, rfl, rfl, rfl, rfl, rfl, rfl, rfl, rfl, rfl⟩

/-- C3. Error taxonomy and push atomicity on error: `Push` returns an error
exactly when the closed flag is observed true at entry; the error is always
the single kind `LockedError` (the spec's "ClosedError") with message
"Queue is locked", and the state returned alongside it is the entry state
unchanged — the error path runs before ticket acquisition.  `Pop`'s result
type (`PopResult`) has no error constructor at all, mirroring Go's
`Pop() interface{}` which signals absence only by `nil`. -/
theorem Queue.push_error_taxonomy {α : Type} (q : Queue α) (x : α) :
    (q.Push x = PushResult.err (LockedError.mk "Queue is locked") q ↔
      q.locked = true) ∧
    (∀ e q', q.Push x = PushResult.err e q' →
      e = LockedError.mk "Queue is locked" ∧ q' = q) := by
  cases hl : q.locked with
  | true =>
    refine ⟨⟨fun _ => rfl, fun _ => ?_⟩, ?_⟩
    · simp only [Queue.Push, hl, if_true]
    · intro e q' h
      simp only [Queue.Push, hl, if_true] at h
      cases h
      exact ⟨rfl, rfl⟩
  | false =>
    have hl' : ¬ q.locked = true := by simp [hl]
    have herr : ∀ e q', ¬ q.Push x = PushResult.err e q' := by
      intro e q' h
      simp only [Queue.Push, if_neg hl'] at h
      split at h
      · exact PushResult.noConfusion h
      · split at h
        · exact PushResult.noConfusion h
        · exact PushResult.noConfusion h
    refine ⟨⟨fun h => absurd h (herr _ _), fun h => ?_⟩, ?_⟩
    · exact absurd h (by simp)
    · intro e q' h
      exact absurd h (herr e q')

/-- Witness for C3: on a closed capacity-1 queue, `Push 3` returns the
locked error with the state unchanged. -/
theorem Queue.push_error_taxonomy_witness :
    (NewQueue Nat 1).Close.locked = true ∧
    (NewQueue Nat 1).Close.Push 3 =
      PushResult.err (LockedError.mk "Queue is locked") (NewQueue Nat 1).Close :=
  ⟨rfl, (Queue.push_error_taxonomy (NewQueue Nat 1).Close 3).1.mpr rfl⟩

/-- C4. Empty-after-drain stability: whenever the drained condition holds
(closed and `write.processing = read.processing`), `Pop` takes the fast
path of queue.go:68-71 and returns `nil` with the state — including
`read.next` — completely unchanged and no ticket acquired; because the
state is unchanged, arbitrarily many repeated `Pop` calls keep returning
empty without blocking. -/
theorem Queue.pop_drained_stable {α : Type} (q : Queue α)
    (h : q.IsDrained = true) :
    q.Pop = PopResult.empty q := by
  rw [Queue.IsDrained, Queue.IsClosed, Queue.IsEmpty, Bool.and_eq_true] at h
  rw [Queue.Pop]
  simp [h.1, h.2]

/-- Witness for C4: a freshly closed capacity-1 queue is drained and `Pop`
returns empty with the state unchanged. -/
theorem Queue.pop_drained_stable_witness :
    (NewQueue Nat 1).Close.IsDrained = true ∧
    (NewQueue Nat 1).Close.Pop = PopResult.empty (NewQueue Nat 1).Close :=
  ⟨rfl, Queue.pop_drained_stable (NewQueue Nat 1).Close rfl⟩

/-- C5. Close/drain sequencing scenario on `NewQueue(1)`:
`Push 1` ok; `Pop` returns `1`; `Push 2` ok; `Close`; `Pop` returns `2`;
`IsDrained` is true; `Push 3` fails with the locked ("closed") error. -/
theorem Queue.close_drain_sequencing :
    ∃ qa qb qc qe : Queue Nat,
      (NewQueue Nat 1).Push 1 = PushResult.ok qa ∧
      qa.Pop = PopResult.ok (Option.some 1) qb ∧
      qb.Push 2 = PushResult.ok qc ∧
      qc.Close.Pop = PopResult.ok (Option.some 2) qe ∧
      qe.IsDrained = true ∧
      qe.Push 3 = PushResult.err (LockedError.mk "Queue is locked") qe := by
  refine ⟨_, _, _, _, rfl, rfl, rfl, rfl, rfl, rfl⟩

/-- C6. Backpressure boundary / push termination when not full: on an open
queue, a `Push` whose ticket `t = write.next` satisfies
`t - read.processing < capacity` passes the overlap wait (queue.go:50) with
zero spin iterations, stores the item at slot `t % capacity`, and — when no
other write ticket is in flight, `write.next = write.processing` — retires
and returns success; whereas a `Push` whose ticket satisfies
`capacity ≤ t - read.processing` blocks at the overlap wait and cannot
proceed until `read.processing` advances (sequentially: blocks forever). -/
theorem Queue.push_backpressure_boundary {α : Type} (q : Queue α) (x : α)
    (hopen : q.locked = false) :
    (q.write.next - q.read.processing < q.capacity →
      q.write.next = q.write.processing →
      q.Push x = PushResult.ok { q with
        write := { processing := q.write.next + 1, next := q.write.next + 1 },
        items := q.items.set (q.write.next % q.capacity) (Option.some x) }) ∧
    (q.capacity ≤ q.write.next - q.read.processing →
      q.Push x = PushResult.blocked) := by
  have hl' : ¬ q.locked = true := by simp [hopen]
  constructor
  · intro h1 h2
    simp only [Queue.Push, if_neg hl', acquireTicket]
    rw [h2] at h1 ⊢
    rw [if_neg (not_le.mpr h1), if_pos rfl]
  · intro h1
    simp only [Queue.Push, if_neg hl', acquireTicket]
    rw [if_pos h1]

/-- Witness for C6: on a fresh capacity-1 queue `Push 1` succeeds without
blocking; on the resulting full queue (ticket 1, `read.processing = 0`,
capacity 1) a further `Push 2` blocks. -/
theorem Queue.push_backpressure_boundary_witness :
    (NewQueue Nat 1).locked = false ∧
    (NewQueue Nat 1).Push 1 = PushResult.ok
      (Queue.mk ⟨1, 1⟩ ⟨0, 0⟩ 1 false SpinPriority.medium [Option.some 1]) ∧
    (Queue.mk ⟨1, 1⟩ ⟨0, 0⟩ 1 false SpinPriority.medium
      [Option.some 1]).Push 2 = PushResult.blocked :=
  ⟨rfl,
   (Queue.push_backpressure_boundary (NewQueue Nat 1) 1 rfl).1 (by decide) rfl,
   (Queue.push_backpressure_boundary
     (Queue.mk ⟨1, 1⟩ ⟨0, 0⟩ 1 false SpinPriority.medium [Option.some 1])
     2 rfl).2 (by decide)⟩

/-- C9. Ticket acquisition formula: `acquireTicket` returns the
pre-increment value of `next` as the ticket, bumps `next` by one and leaves
`processing` alone; two consecutive acquisitions yield consecutive strictly
increasing tickets; acquisition is a total function with no blocking
outcome (wait-free).  Consequently every completed `Push` leaves
`write.next` incremented by one and stores its item at slot
`write.next % capacity`, and every completed `Pop` leaves `read.next`
incremented by one and reads slot `read.next % capacity`. -/
theorem Queue.ticket_acquisition {α : Type} :
    (∀ a : queueAccess, (acquireTicket a).1 = a.next ∧
      (acquireTicket a).2.next = a.next + 1 ∧
      (acquireTicket a).2.processing = a.processing) ∧
    (∀ a : queueAccess,
      (acquireTicket (acquireTicket a).2).1 = (acquireTicket a).1 + 1) ∧
    (∀ (q : Queue α) (x : α) (q' : Queue α), q.Push x = PushResult.ok q' →
      q'.write.next = q.write.next + 1 ∧
      q'.items = q.items.set (q.write.next % q.capacity) (Option.some x)) ∧
    (∀ (q : Queue α) (item : Option α) (q' : Queue α),
      q.Pop = PopResult.ok item q' →
      q'.read.next = q.read.next + 1 ∧
      item = q.items.getD (q.read.next % q.capacity) Option.none) := by
  refine ⟨fun a => ⟨rfl, rfl, rfl⟩, fun a => rfl, ?_, ?_⟩
  · intro q x q' h
    simp only [Queue.Push, acquireTicket] at h
    split at h
    · exact PushResult.noConfusion h
    · split at h
      · exact PushResult.noConfusion h
      · split at h
        · cases h
          exact ⟨rfl, rfl⟩
        · exact PushResult.noConfusion h
  · intro q item q' h
    simp only [Queue.Pop, Queue.popAcquire, Queue.popResume, acquireTicket] at h
    split at h
    · exact PopResult.noConfusion h
    · split at h
      · exact PopResult.noConfusion h
      · split at h
        · cases h
          exact ⟨rfl, rfl⟩
        · exact PopResult.noConfusion h

/-- Witness for C9: pushing onto a fresh capacity-1 queue bumps
`write.next` from 0 to 1 and stores at slot 0. -/
theorem Queue.ticket_acquisition_witness :
    (NewQueue Nat 1).Push 7 = PushResult.ok
      (Queue.mk ⟨1, 1⟩ ⟨0, 0⟩ 1 false SpinPriority.medium [Option.some 7]) ∧
    (Queue.mk ⟨1, 1⟩ ⟨0, 0⟩ 1 false SpinPriority.medium
      [Option.some 7]).write.next = (NewQueue Nat 1).write.next + 1 :=
  ⟨rfl, ((@Queue.ticket_acquisition Nat).2.2.1 (NewQueue Nat 1) 7 _ rfl).1⟩

/-- C7. Aborted-pop bookkeeping: a `Pop` that passed the entry check on an
open empty queue and acquired its read ticket, and then observes the
drained condition (after a concurrent `Close`) while spinning at the
publish wait, returns `nil` leaving `read.next` exactly one ahead of its
entry value with `read.processing` untouched — the abandoned ticket is
never resynchronized.  Consequently, on any state whose `read.next` is
ahead of `read.processing`, a `Reopen` followed by `Pop` blocks forever
(sequentially: the retirement loop `ticket = read.processing` can never be
passed, since the skipped ticket is never retired). -/
theorem Queue.pop_abort_bookkeeping {α : Type} (q : Queue α)
    (hopen : q.locked = false)
    (hempty : q.write.processing = q.read.processing)
    (hinv : q.read.processing ≤ q.read.next) :
    Queue.popResume (q.popAcquire).1.Close (q.popAcquire).2 =
      PopResult.empty (q.popAcquire).1.Close ∧
    (q.popAcquire).1.Close.read.next = q.read.next + 1 ∧
    (q.popAcquire).1.Close.read.processing = q.read.processing ∧
    (∀ q' : Queue α, q'.read.processing < q'.read.next →
      q'.Reopen.Pop = PopResult.blocked) := by
  refine ⟨?_, rfl, rfl, ?_⟩
  · have h1 : (q.popAcquire).1.Close.write.processing ≤ (q.popAcquire).2 := by
      simpa [Queue.popAcquire, acquireTicket, Queue.Close] using hempty ▸ hinv
    have h2 : ((q.popAcquire).1.Close.locked &&
        ((q.popAcquire).1.Close.write.processing ==
          (q.popAcquire).1.Close.read.processing)) = true := by
      simp [Queue.popAcquire, acquireTicket, Queue.Close, hempty]
    simp only [Queue.popResume]
    rw [if_pos h1, if_pos h2]
  · intro q' hq'
    have hne : ¬ q'.read.next = q'.read.processing := by omega
    simp [Queue.Pop, Queue.Reopen, Queue.popAcquire, acquireTicket,
      Queue.popResume, hne]

/-- Witness for C7: on a fresh (open, empty) capacity-1 queue, the
ticket-acquired-then-closed pop aborts with `nil`, leaving the read side
desynchronized. -/
theorem Queue.pop_abort_bookkeeping_witness :
    ((NewQueue Nat 1).locked = false ∧
     (NewQueue Nat 1).write.processing = (NewQueue Nat 1).read.processing ∧
     (NewQueue Nat 1).read.processing ≤ (NewQueue Nat 1).read.next) ∧
    Queue.popResume ((NewQueue Nat 1).popAcquire).1.Close
        ((NewQueue Nat 1).popAcquire).2 =
      PopResult.empty ((NewQueue Nat 1).popAcquire).1.Close :=
  ⟨⟨rfl, rfl, Nat.le.refl⟩,
   (Queue.pop_abort_bookkeeping (NewQueue Nat 1) rfl rfl Nat.le.refl).1⟩

/-- Helper: the error path of `Push` returns the entry state unchanged. -/
theorem Queue.push_err_state {α : Type} {q q' : Queue α} {e : LockedError}
    {x : α} (h : q.Push x = PushResult.err e q') : q' = q := by
  simp only [Queue.Push, acquireTicket] at h
  split at h
  · cases h
    rfl
  · split at h
    · exact PushResult.noConfusion h
    · split at h
      · exact PushResult.noConfusion h
      · exact PushResult.noConfusion h

/-- Helper: a `Pop` that returns `nil` in a sequential execution can only
have taken the entry fast path, so it returns the entry state unchanged
(the in-loop abort re-checks the very condition that just failed on an
unchanged state). -/
theorem Queue.pop_empty_state {α : Type} {q q' : Queue α}
    (h : q.Pop = PopResult.empty q') : q' = q := by
  simp only [Queue.Pop, Queue.popAcquire, acquireTicket, Queue.popResume] at h
  split at h
  · cases h
    rfl
  · split at h
    · exact PopResult.noConfusion h
    · split at h
      · exact PopResult.noConfusion h
      · exact PopResult.noConfusion h

/-- Sequentially reachable states of a capacity-`c` queue: the constructed
state, and closure under every completed (non-blocking) operation. -/
inductive Reachable (α : Type) (c : Nat) : Queue α → Prop where
  | init (p : SpinPriority) : Reachable α c (NewQueueWithPriority α c p)
  | push_ok {q q' : Queue α} {x : α} :
      Reachable α c q → q.Push x = PushResult.ok q' → Reachable α c q'
  | push_err {q q' : Queue α} {e : LockedError} {x : α} :
      Reachable α c q → q.Push x = PushResult.err e q' → Reachable α c q'
  | pop_ok {q q' : Queue α} {item : Option α} :
      Reachable α c q → q.Pop = PopResult.ok item q' → Reachable α c q'
  | pop_empty {q q' : Queue α} :
      Reachable α c q → q.Pop = PopResult.empty q' → Reachable α c q'
  | close {q : Queue α} : Reachable α c q → Reachable α c q.Close
  | reopen {q : Queue α} : Reachable α c q → Reachable α c q.Reopen

/-- The state invariant maintained by every operation. -/
def QueueInv {α : Type} (c : Nat) (q : Queue α) : Prop :=
  q.capacity = c ∧ q.items.length = c ∧
  q.read.processing ≤ q.write.processing ∧
  q.write.processing ≤ q.write.next ∧
  q.read.processing ≤ q.read.next ∧
  q.write.processing - q.read.processing ≤ c

theorem QueueInv_init {α : Type} (c : Nat) (p : SpinPriority) :
    QueueInv c (NewQueueWithPriority α c p) := by
  simp [QueueInv, NewQueueWithPriority, newQueueAccess]

theorem QueueInv_push_ok {α : Type} {c : Nat} {q q' : Queue α} {x : α}
    (hinv : QueueInv c q) (h : q.Push x = PushResult.ok q') : QueueInv c q' := by
  obtain ⟨hc, hlen, h1, h2, h3, h4⟩ := hinv
  simp only [Queue.Push, acquireTicket] at h
  split at h
  · exact PushResult.noConfusion h
  · split at h
    · exact PushResult.noConfusion h
    · split at h
      · cases h
        refine ⟨hc, ?_, ?_, ?_, h3, ?_⟩ <;> simp_all <;> omega
      · exact PushResult.noConfusion h

theorem QueueInv_pop_ok {α : Type} {c : Nat} {q q' : Queue α}
    {item : Option α} (hinv : QueueInv c q) (h : q.Pop = PopResult.ok item q') :
    QueueInv c q' := by
  obtain ⟨hc, hlen, h1, h2, h3, h4⟩ := hinv
  simp only [Queue.Pop, Queue.popAcquire, acquireTicket, Queue.popResume] at h
  split at h
  · exact PopResult.noConfusion h
  · split at h
    · exact PopResult.noConfusion h
    · split at h
      · cases h
        refine ⟨hc, hlen, ?_, h2, ?_, ?_⟩ <;> simp_all <;> omega
      · exact PopResult.noConfusion h

/-- Every sequentially reachable state satisfies the invariant. -/
theorem QueueInv_reachable {α : Type} {c : Nat} {q : Queue α}
    (h : Reachable α c q) : QueueInv c q := by
  induction h with
  | init p => exact QueueInv_init c p
  | push_ok _ hstep ih => exact QueueInv_push_ok ih hstep
  | push_err _ hstep ih =>
    rw [Queue.push_err_state hstep]
    exact ih
  | pop_ok _ hstep ih => exact QueueInv_pop_ok ih hstep
  | pop_empty _ hstep ih =>
    rw [Queue.pop_empty_state hstep]
    exact ih
  | close _ ih => exact ih
  | reopen _ ih => exact ih

/-- C2. Counter invariant: in every state reachable by any sequence of
`Push`, `Pop`, `Close`, `Reopen` from `NewQueueWithPriority(c, _)` (hence
also from `NewQueue(c)`) with `c > 0`:
`read.processing ≤ write.processing ≤ write.next`,
`read.processing ≤ read.next`, and the logical item count
`write.processing - read.processing` never exceeds the capacity `c`. -/
theorem Queue.counter_invariant {α : Type} {c : Nat} (q : Queue α)
    (hc : 0 < c) (h : Reachable α c q) :
    q.read.processing ≤ q.write.processing ∧
    q.write.processing ≤ q.write.next ∧
    q.read.processing ≤ q.read.next ∧
    q.capacity = c ∧
    q.write.processing - q.read.processing ≤ c := by
  obtain ⟨hcap, _, h1, h2, h3, h4⟩ := QueueInv_reachable h
  exact ⟨h1, h2, h3, hcap, h4⟩

/-- Witness for C2: the invariant evaluated on the fresh capacity-1
queue. -/
theorem Queue.counter_invariant_witness :
    0 < 1 ∧
    ((NewQueue Nat 1).read.processing ≤ (NewQueue Nat 1).write.processing ∧
     (NewQueue Nat 1).write.processing ≤ (NewQueue Nat 1).write.next ∧
     (NewQueue Nat 1).read.processing ≤ (NewQueue Nat 1).read.next ∧
     (NewQueue Nat 1).capacity = 1 ∧
     (NewQueue Nat 1).write.processing - (NewQueue Nat 1).read.processing ≤ 1) :=
  ⟨Nat.one_pos,
   Queue.counter_invariant (NewQueue Nat 1) Nat.one_pos
     (Reachable.init SpinPriorityMedium)⟩

/-- C10. Slot-access safety under positive capacity: for every reachable
state of a queue constructed with capacity `c > 0`, the slot array length
equals the capacity, the capacity is positive (so the Go modulo is never a
division by zero), and every slot index `ticket % capacity` computed by
`Push` (from `write.next`) or `Pop` (from `read.next`) — indeed any ticket
at all — is strictly within the bounds of the slot array. -/
theorem Queue.slot_access_in_bounds {α : Type} {c : Nat} (q : Queue α)
    (hc : 0 < c) (h : Reachable α c q) :
    0 < q.capacity ∧
    q.items.length = q.capacity ∧
    q.write.next % q.capacity < q.items.length ∧
    q.read.next % q.capacity < q.items.length ∧
    ∀ ticket : Nat, ticket % q.capacity < q.items.length := by
  obtain ⟨hcap, hlen, -, -, -, -⟩ := QueueInv_reachable h
  have hpos : 0 < q.capacity := hcap ▸ hc
  have hlen' : q.items.length = q.capacity := by rw [hlen, hcap]
  refine ⟨hpos, hlen', ?_, ?_, ?_⟩
  · rw [hlen']
    exact Nat.mod_lt _ hpos
  · rw [hlen']
    exact Nat.mod_lt _ hpos
  · intro ticket
    rw [hlen']
    exact Nat.mod_lt _ hpos

/-- Witness for C10: bounds evaluated on the fresh capacity-1 queue. -/
theorem Queue.slot_access_in_bounds_witness :
    0 < 1 ∧
    (0 < (NewQueue Nat 1).capacity ∧
     (NewQueue Nat 1).items.length = (NewQueue Nat 1).capacity ∧
     (NewQueue Nat 1).write.next % (NewQueue Nat 1).capacity <
       (NewQueue Nat 1).items.length ∧
     (NewQueue Nat 1).read.next % (NewQueue Nat 1).capacity <
       (NewQueue Nat 1).items.length ∧
     ∀ ticket : Nat,
       ticket % (NewQueue Nat 1).capacity < (NewQueue Nat 1).items.length) :=
  ⟨Nat.one_pos,
   Queue.slot_access_in_bounds (NewQueue Nat 1) Nat.one_pos
     (Reachable.init SpinPriorityMedium)⟩

/-- A single queue operation of a sequential client program. -/
inductive Op (α : Type) where
  | push (x : α)
  | pop
  | close
  | reopen
deriving DecidableEq, Repr

/-- The observable outcome of one operation, as seen by the client. -/
inductive OpResult (α : Type) where
  | pushOk (x : α)
  | pushClosed
  | popRet (x : Option α)
  | ack
deriving DecidableEq, Repr

/-- Execute one operation sequentially; `Option.none` if it blocks. -/
def Queue.step {α : Type} (q : Queue α) : Op α → Option (Queue α × OpResult α)
  | Op.push x =>
    match q.Push x with
    | PushResult.err _ q' => Option.some (q', OpResult.pushClosed)
    | PushResult.blocked => Option.none
    | PushResult.ok q' => Option.some (q', OpResult.pushOk x)
  | Op.pop =>
    match q.Pop with
    | PopResult.empty q' => Option.some (q', OpResult.popRet Option.none)
    | PopResult.blocked => Option.none
    | PopResult.ok item q' => Option.some (q', OpResult.popRet item)
  | Op.close => Option.some (q.Close, OpResult.ack)
  | Op.reopen => Option.some (q.Reopen, OpResult.ack)

/-- Run a sequential trace to completion; `Option.none` if any operation
blocks. -/
def Queue.runTrace {α : Type} (q : Queue α) :
    List (Op α) → Option (Queue α × List (OpResult α))
  | [] => Option.some (q, [])
  | op :: rest =>
    match q.step op with
    | Option.none => Option.none
    | Option.some (q', r) =>
      match Queue.runTrace q' rest with
      | Option.none => Option.none
      | Option.some (qf, outs) => Option.some (qf, r :: outs)

/-- The items successfully pushed, in trace order. -/
def pushedOf {α : Type} : List (OpResult α) → List α
  | [] => []
  | OpResult.pushOk x :: rest => x :: pushedOf rest
  | OpResult.pushClosed :: rest => pushedOf rest
  | OpResult.popRet _ :: rest => pushedOf rest
  | OpResult.ack :: rest => pushedOf rest

/-- The items returned by non-empty pops, in trace order. -/
def poppedOf {α : Type} : List (OpResult α) → List α
  | [] => []
  | OpResult.popRet (Option.some x) :: rest => x :: poppedOf rest
  | OpResult.popRet Option.none :: rest => poppedOf rest
  | OpResult.pushOk _ :: rest => poppedOf rest
  | OpResult.pushClosed :: rest => poppedOf rest
  | OpResult.ack :: rest => poppedOf rest

/-- The slots of the circular buffer holding tickets `lo ≤ t < lo + n`. -/
def window {α : Type} (items : List (Option α)) (cap lo n : Nat) :
    List (Option α) :=
  (List.range n).map (fun k => items.getD ((lo + k) % cap) Option.none)

/-- The logical content of the queue: the retired-but-unread window of
write tickets `read.processing ≤ t < write.processing`, each mapped to its
slot. -/
def Queue.contents {α : Type} (q : Queue α) : List (Option α) :=
  window q.items q.capacity q.read.processing
    (q.write.processing - q.read.processing)

/-- Simulation invariant of a sequential run, tying the queue state to the
histories of successfully pushed and popped items. -/
def SeqInv {α : Type} (c : Nat) (pushed popped : List α) (q : Queue α) :
    Prop :=
  q.capacity = c ∧
  q.items.length = c ∧
  q.write.next = q.write.processing ∧
  q.read.next = q.read.processing ∧
  q.read.processing ≤ q.write.processing ∧
  q.write.processing - q.read.processing ≤ c ∧
  pushed.map Option.some = popped.map Option.some ++ q.contents

theorem SeqInv_init {α : Type} (c : Nat) (p : SpinPriority) :
    SeqInv c [] [] (NewQueueWithPriority α c p) := by
  simp [SeqInv, NewQueueWithPriority, newQueueAccess, Queue.contents, window]

/-- Two naturals strictly less than a window of width `cap` apart have
distinct residues. -/
theorem mod_ne_of_lt_gap {a b cap : Nat} (hab : a < b) (hgap : b - a < cap) :
    a % cap ≠ b % cap := by
  intro h
  have hd : cap ∣ b - a := (Nat.modEq_iff_dvd' (Nat.le_of_lt hab)).mp h
  have := Nat.le_of_dvd (by omega) hd
  omega

theorem window_set_ne {α : Type} {items : List (Option α)}
    {cap lo n j : Nat} {v : Option α}
    (h : ∀ k, k < n → (lo + k) % cap ≠ j) :
    window (items.set j v) cap lo n = window items cap lo n := by
  refine List.map_congr_left ?_
  intro k hk
  rw [List.getD_eq_getElem?_getD, List.getD_eq_getElem?_getD,
    List.getElem?_set_ne (Ne.symm (h k (List.mem_range.mp hk)))]

theorem window_succ {α : Type} (items : List (Option α)) (cap lo n : Nat) :
    window items cap lo (n + 1) =
      window items cap lo n ++ [items.getD ((lo + n) % cap) Option.none] := by
  unfold window
  rw [List.range_succ, List.map_append, List.map_singleton]

theorem window_cons {α : Type} (items : List (Option α)) (cap lo n : Nat) :
    window items cap lo (n + 1) =
      items.getD (lo % cap) Option.none :: window items cap (lo + 1) n := by
  unfold window
  rw [List.range_succ_eq_map, List.map_cons, List.map_map]
  refine congrArg₂ _ (by rw [Nat.add_zero]) (List.map_congr_left ?_)
  intro k _
  have harg : lo + Nat.succ k = lo + 1 + k := by omega
  simp only [Function.comp_apply, harg]

/-- Completing a push appends its item to the logical content. -/
theorem SeqInv_push_ok {α : Type} {c : Nat} {q q' : Queue α} {x : α}
    {pushed popped : List α} (hinv : SeqInv c pushed popped q)
    (h : q.Push x = PushResult.ok q') :
    SeqInv c (pushed ++ [x]) popped q' := by
  obtain ⟨hc, hlen, hwn, hrn, hle, hcnt, habs⟩ := hinv
  simp only [Queue.Push, acquireTicket] at h
  split at h
  · exact PushResult.noConfusion h
  · rename_i hnl
    split at h
    · exact PushResult.noConfusion h
    · rename_i hover
      cases h
      have hpos : 0 < q.capacity := by omega
      have hgap : q.write.processing - q.read.processing < q.capacity := by
        omega
      have hkne : ∀ k, k < q.write.processing - q.read.processing →
          (q.read.processing + k) % q.capacity ≠
            q.write.next % q.capacity := by
        intro k hk
        rw [hwn]
        exact mod_ne_of_lt_gap (by omega) (by omega)
      have hlt : q.write.next % q.capacity < q.items.length := by
        rw [hlen, ← hc]
        exact Nat.mod_lt _ hpos
      have hcontents :
          Queue.contents { q with
            write := { processing := q.write.processing + 1,
                       next := q.write.next + 1 },
            items := q.items.set (q.write.next % q.capacity)
              (Option.some x) } =
          q.contents ++ [Option.some x] := by
        show window
            (q.items.set (q.write.next % q.capacity) (Option.some x))
            q.capacity q.read.processing
            (q.write.processing + 1 - q.read.processing) =
          window q.items q.capacity q.read.processing
            (q.write.processing - q.read.processing) ++ [Option.some x]
        have hn : q.write.processing + 1 - q.read.processing =
            (q.write.processing - q.read.processing) + 1 := by omega
        rw [hn, window_succ, window_set_ne hkne]
        have hslot : q.read.processing +
            (q.write.processing - q.read.processing) =
              q.write.processing := by omega
        rw [hslot, ← hwn, List.getD_eq_getElem?_getD,
          List.getElem?_set_self', List.getElem?_eq_getElem hlt]
        simp
      refine ⟨hc, ?_, ?_, hrn, ?_, ?_, ?_⟩
      · show (q.items.set (q.write.next % q.capacity)
            (Option.some x)).length = c
        rw [List.length_set]
        exact hlen
      · show q.write.next + 1 = q.write.processing + 1
        omega
      · show q.read.processing ≤ q.write.processing + 1
        omega
      · show q.write.processing + 1 - q.read.processing ≤ c
        omega
      · rw [hcontents, List.map_append, habs, List.map_singleton,
          List.append_assoc]

/-- Completing a pop removes the head of the logical content and returns
it. -/
theorem SeqInv_pop_ok {α : Type} {c : Nat} {q q' : Queue α}
    {item : Option α} {pushed popped : List α}
    (hinv : SeqInv c pushed popped q) (h : q.Pop = PopResult.ok item q') :
    ∃ y, item = Option.some y ∧ SeqInv c pushed (popped ++ [y]) q' := by
  obtain ⟨hc, hlen, hwn, hrn, hle, hcnt, habs⟩ := hinv
  simp only [Queue.Pop, Queue.popAcquire, acquireTicket, Queue.popResume] at h
  split at h
  · exact PopResult.noConfusion h
  · split at h
    · exact PopResult.noConfusion h
    · rename_i hne hwait
      cases h
      have hlt : q.read.next < q.write.processing := by omega
      have hcontents : q.contents =
          q.items.getD (q.read.next % q.capacity) Option.none ::
            window q.items q.capacity (q.read.processing + 1)
              (q.write.processing - (q.read.processing + 1)) := by
        unfold Queue.contents
        have hn : q.write.processing - q.read.processing =
            (q.write.processing - (q.read.processing + 1)) + 1 := by omega
        rw [hn, window_cons, hrn]
      have hmem : q.items.getD (q.read.next % q.capacity) Option.none ∈
          pushed.map Option.some := by
        rw [habs, hcontents]
        exact List.mem_append_right _ (List.mem_cons_self _ _)
      obtain ⟨y, -, hy⟩ := List.mem_map.mp hmem
      refine ⟨y, hy.symm, hc, hlen, hwn, ?_, ?_, ?_, ?_⟩
      · show q.read.next + 1 = q.read.processing + 1
        omega
      · show q.read.processing + 1 ≤ q.write.processing
        omega
      · show q.write.processing - (q.read.processing + 1) ≤ c
        omega
      · show pushed.map Option.some = (popped ++ [y]).map Option.some ++
          window q.items q.capacity (q.read.processing + 1)
            (q.write.processing - (q.read.processing + 1))
        rw [List.map_append, List.map_singleton, List.append_assoc, habs,
          hcontents, ← hy]
        rfl

theorem SeqInv_close {α : Type} {c : Nat} {pushed popped : List α}
    {q : Queue α} (hinv : SeqInv c pushed popped q) :
    SeqInv c pushed popped q.Close := hinv

theorem SeqInv_reopen {α : Type} {c : Nat} {pushed popped : List α}
    {q : Queue α} (hinv : SeqInv c pushed popped q) :
    SeqInv c pushed popped q.Reopen := hinv

theorem pushedOf_cons {α : Type} (r : OpResult α) (rest : List (OpResult α)) :
    pushedOf (r :: rest) = pushedOf [r] ++ pushedOf rest := by
  cases r with
  | pushOk x => rfl
  | pushClosed => rfl
  | popRet x => cases x <;> rfl
  | ack => rfl

theorem poppedOf_cons {α : Type} (r : OpResult α) (rest : List (OpResult α)) :
    poppedOf (r :: rest) = poppedOf [r] ++ poppedOf rest := by
  cases r with
  | pushOk x => rfl
  | pushClosed => rfl
  | popRet x => cases x <;> rfl
  | ack => rfl

/-- One completed operation preserves the simulation invariant, extending
the push or pop history by exactly what the operation reports. -/
theorem SeqInv_step {α : Type} {c : Nat} {q q' : Queue α} {op : Op α}
    {r : OpResult α} {pushed popped : List α}
    (hinv : SeqInv c pushed popped q)
    (h : q.step op = Option.some (q', r)) :
    SeqInv c (pushed ++ pushedOf [r]) (popped ++ poppedOf [r]) q' := by
  cases op with
  | push x =>
    simp only [Queue.step] at h
    cases hpush : q.Push x with
    | err e q2 =>
      simp only [hpush] at h
      cases h
      rw [Queue.push_err_state hpush]
      simpa [pushedOf, poppedOf] using hinv
    | blocked =>
      simp only [hpush] at h
      exact Option.noConfusion h
    | ok q2 =>
      simp only [hpush] at h
      cases h
      simpa [pushedOf, poppedOf] using SeqInv_push_ok hinv hpush
  | pop =>
    simp only [Queue.step] at h
    cases hpop : q.Pop with
    | empty q2 =>
      simp only [hpop] at h
      cases h
      rw [Queue.pop_empty_state hpop]
      simpa [pushedOf, poppedOf] using hinv
    | blocked =>
      simp only [hpop] at h
      exact Option.noConfusion h
    | ok item q2 =>
      simp only [hpop] at h
      cases h
      obtain ⟨y, hy, hinv'⟩ := SeqInv_pop_ok hinv hpop
      rw [hy]
      simpa [pushedOf, poppedOf] using hinv'
  | close =>
    simp only [Queue.step] at h
    cases h
    simpa [pushedOf, poppedOf] using SeqInv_close hinv
  | reopen =>
    simp only [Queue.step] at h
    cases h
    simpa [pushedOf, poppedOf] using SeqInv_reopen hinv

/-- A completed sequential run extends the histories by exactly what its
outputs report. -/
theorem SeqInv_runTrace {α : Type} {c : Nat} (T : List (Op α)) :
    ∀ {q qf : Queue α} {outs : List (OpResult α)} (pushed popped : List α),
      SeqInv c pushed popped q →
      Queue.runTrace q T = Option.some (qf, outs) →
      SeqInv c (pushed ++ pushedOf outs) (popped ++ poppedOf outs) qf := by
  induction T with
  | nil =>
    intro q qf outs pushed popped hinv hrun
    simp only [Queue.runTrace] at hrun
    cases hrun
    simpa [pushedOf, poppedOf] using hinv
  | cons op rest ih =>
    intro q qf outs pushed popped hinv hrun
    simp only [Queue.runTrace] at hrun
    cases hstep : q.step op with
    | none =>
      rw [hstep] at hrun
      exact Option.noConfusion hrun
    | some pr =>
      obtain ⟨q', r⟩ := pr
      simp only [hstep] at hrun
      cases hrest : Queue.runTrace q' rest with
      | none =>
        rw [hrest] at hrun
        exact Option.noConfusion hrun
      | some pr2 =>
        obtain ⟨qf', outs'⟩ := pr2
        rw [hrest] at hrun
        cases hrun
        have h2 := ih _ _ (SeqInv_step hinv hstep) hrest
        rw [pushedOf_cons, poppedOf_cons]
        simpa [List.append_assoc] using h2

/-- C1. No loss, no duplication, global FIFO (sequential form): for any
capacity `c > 0` and any sequential trace of `Push`/`Pop`/`Close`/`Reopen`
calls on `NewQueue(c)` in which no call blocks and whose final state is
drained (`Close` called and `Pop` repeated until drained), the list of
items returned by non-empty `Pop` calls is EQUAL, as a list, to the list of
items accepted by successful `Push` calls: the same number of non-empty
pops as pushes, the same multiset of items, delivered in exactly push
order — which by `Queue.ticket_acquisition` is exactly the order in which
the pushes obtained their strictly increasing write tickets. -/
theorem Queue.sequential_fifo_no_loss {α : Type} (c : Nat) (hc : 0 < c)
    (T : List (Op α)) (qf : Queue α) (outs : List (OpResult α))
    (hrun : Queue.runTrace (NewQueue α c) T = Option.some (qf, outs))
    (hdrained : qf.IsDrained = true) :
    poppedOf outs = pushedOf outs := by
  have hinit : SeqInv c [] [] (NewQueue α c) := SeqInv_init c SpinPriorityMedium
  obtain ⟨-, -, -, -, -, -, habs⟩ := SeqInv_runTrace T [] [] hinit hrun
  rw [Queue.IsDrained, Queue.IsClosed, Queue.IsEmpty, Bool.and_eq_true,
    beq_iff_eq] at hdrained
  have hempty : qf.contents = [] := by
    unfold Queue.contents
    rw [hdrained.2, Nat.sub_self]
    rfl
  rw [hempty, List.append_nil] at habs
  have := List.map_injective_iff.mpr
    (fun a b hab => Option.some.inj hab) habs
  simpa using this.symm

/-- Witness for C1: the trace push 5, pop, close on a capacity-1 queue
completes, ends drained, and pops exactly what was pushed. -/
theorem Queue.sequential_fifo_no_loss_witness :
    0 < 1 ∧
    Queue.runTrace (NewQueue Nat 1) [Op.push 5, Op.pop, Op.close] =
      Option.some
        (Queue.mk ⟨1, 1⟩ ⟨1, 1⟩ 1 true SpinPriority.medium [Option.some 5],
         [OpResult.pushOk 5, OpResult.popRet (Option.some 5), OpResult.ack]) ∧
    (Queue.mk ⟨1, 1⟩ ⟨1, 1⟩ 1 true SpinPriority.medium
      [Option.some 5]).IsDrained = true ∧
    poppedOf [OpResult.pushOk (5 : Nat), OpResult.popRet (Option.some 5),
        OpResult.ack] =
      pushedOf [OpResult.pushOk (5 : Nat), OpResult.popRet (Option.some 5),
        OpResult.ack] :=
  ⟨Nat.one_pos, rfl, rfl,
   Queue.sequential_fifo_no_loss 1 Nat.one_pos
     [Op.push 5, Op.pop, Op.close] _ _ rfl rfl⟩

end Tsync
